import Mathlib

/-!
Shallow embedding of cognusion/go-breakermux (cbmux.go, current snapshot).

Time is modelled as integer microseconds since the epoch (the code stores
timestamps via UnixMicro). Every call the Go code makes to the system clock
becomes an explicit Micros parameter of the Lean operation; clock
monotonicity, where a claim needs it, is an explicit hypothesis.

The circuit breaker itself (sony/gobreaker) is an external collaborator of
this repository. It is modelled from the contract in the specification:
given a configuration and a zero-argument operation producing a value and
an optional error, Execute runs the operation under breaker policy and
passes its result through, unless the circuit is open, in which case it
returns the zero value together with a distinguished circuit-open error
without invoking the operation.
-/

namespace Breakermux

/-- Instants and durations, in microseconds. -/
abbrev Micros := Int

/-- gobreaker breaker states (external collaborator). -/
inductive BreakerState where
  | closed
  | halfOpen
  | opened
  deriving Repr, DecidableEq

/-- gobreaker Counts (external collaborator): argument of the trip predicate. -/
structure Counts where
  requests : Nat
  totalSuccesses : Nat
  totalFailures : Nat
  consecutiveSuccesses : Nat
  consecutiveFailures : Nat
  deriving Repr, DecidableEq

/-- gobreaker.Settings: the breaker configuration template. E is the type of
errors produced by execution closures. -/
structure GSettings (E : Type) where
  Name : String
  MaxRequests : Nat
  Interval : Micros
  Timeout : Micros
  ReadyToTrip : Counts → Bool
  OnStateChange : String → BreakerState → BreakerState → Unit
  IsSuccessful : Option E → Bool

/-- An error surfaced by a breaker execution: either the distinguished
circuit-open error, or the error produced by the execution closure,
passed through unchanged. -/
inductive BError (E : Type) where
  | openCircuit
  | exec (e : E)
  deriving Repr, DecidableEq

/-- Modelled from the spec: the external breaker collaborator, reduced to its
narrow interface. The settings snapshot records the configuration it was
constructed with; isOpen records whether the circuit currently
short-circuits executions. -/
structure CircuitBreaker (T E : Type) where
  st : GSettings E
  isOpen : Bool

/-- Modelled from the spec: gobreaker.NewCircuitBreaker stores the given
settings; a fresh breaker starts in the closed state. -/
def NewCircuitBreaker (T : Type) (st : GSettings E) : CircuitBreaker T E :=
  { st := st, isOpen := false }

/-- Modelled from the spec: execute the operation under breaker policy,
returning its value and error unless the circuit is open, in which case
return the zero value and the distinguished circuit-open error without
invoking the operation. -/
def CircuitBreaker.Execute [Inhabited T] (cb : CircuitBreaker T E)
    (op : Unit → T × Option E) : T × Option (BError E) :=
  if cb.isOpen then (default, some BError.openCircuit)
  else
    let r := op ()
    (r.1, r.2.map BError.exec)

/-- cache (cbmux.go): the write-once, read-many slot wrapping one stored item
with atomically tracked access and modification times. -/
structure Cache (α : Type) where
  item : α
  atime : Micros
  mtime : Micros

/-- cache.New: stores mtime from the first clock sample t1, then atime from
the second clock sample t2, then the item. In the source this initialises a
zero-valued cache in place; here it constructs the slot. -/
def Cache.New (t1 t2 : Micros) (item : α) : Cache α :=
  { item := item, atime := t2, mtime := t1 }

/-- cache.Get: stores the current clock sample t into atime and returns the
item. The returned pair is (item, slot after the atime update). -/
def Cache.Get (c : Cache α) (t : Micros) : α × Cache α :=
  (c.item, { c with atime := t })

/-- cache.Atime: pure accessor for the access time. -/
def Cache.Atime (c : Cache α) : Micros := c.atime

/-- cache.Mtime: pure accessor for the modification time. -/
def Cache.Mtime (c : Cache α) : Micros := c.mtime

/-- sync.Map.Load: first binding of the key, if any. -/
def mapLoad (m : List (String × α)) (k : String) : Option α :=
  (m.find? (fun p => p.1 == k)).map (fun p => p.2)

/-- sync.Map.Store on a key: bind k to v, dropping any previous binding. -/
def mapStore (m : List (String × α)) (k : String) (v : α) : List (String × α) :=
  (k, v) :: m.filter (fun p => !(p.1 == k))

/-- In-place mutation through the pointer stored in the map: the binding of
k, if present, is replaced by v; nothing is inserted or removed. -/
def mapUpdate (m : List (String × α)) (k : String) (v : α) : List (String × α) :=
  m.map (fun p => if p.1 == k then (k, v) else p)

/-- sync.Map.Delete: remove the binding of k, if any. -/
def mapDelete (m : List (String × α)) (k : String) : List (String × α) :=
  m.filter (fun p => !(p.1 == k))

/-- Settings (cbmux.go): per-mux configuration. It embeds the
gobreaker.Settings template, the execution-closure factory, and the two
expiry durations. -/
structure Settings (T E : Type) where
  gset : GSettings E
  ExecClosure : String → Unit → T × Option E
  ExpireAfter : Micros
  ExpireCheck : Micros

/-- CircuitBreakerMux (cbmux.go): breakers map, settings template, execution
closure factory, and the kill channel (modelled by whether it has been
closed). -/
structure CircuitBreakerMux (T E : Type) where
  breakers : List (String × Cache (CircuitBreaker T E))
  st : GSettings E
  efunc : String → Unit → T × Option E
  killClosed : Bool

/-- NewMux: fresh mux with an empty map, an open kill channel, the settings
template and the execution closure from st. The background scheduler it
spawns is modelled by schedPolicy and sweepTick below. -/
def NewMux (st : Settings T E) : CircuitBreakerMux T E :=
  { breakers := [], st := st.gset, efunc := st.ExecClosure, killClosed := false }

/-- The branching NewMux performs when deciding which background sweep loop
to spawn (cbmux.go lines 138 to 167): no loop unless ExpireCheck is
positive; with ExpireCheck positive, a clear-the-map loop when ExpireAfter
is nonpositive, otherwise a traverse-and-expire loop. -/
inductive SweepPolicy where
  | noSweep
  | clearAll (check : Micros)
  | expireIdle (check after : Micros)
  deriving Repr, DecidableEq

/-- The sweep policy NewMux selects from the settings. -/
def schedPolicy (st : Settings T E) : SweepPolicy :=
  if 0 < st.ExpireCheck then
    if st.ExpireAfter ≤ 0 then SweepPolicy.clearAll st.ExpireCheck
    else SweepPolicy.expireIdle st.ExpireCheck st.ExpireAfter
  else SweepPolicy.noSweep

/-- CircuitBreakerMux.Get. The two Micros arguments are the successive clock
samples the call may take: in the found branch, cache.Get samples the clock
once (t1); in the miss branch, cache.New samples it twice (t1 then t2). -/
def CircuitBreakerMux.Get [Inhabited T] (c : CircuitBreakerMux T E) (key : String)
    (t1 t2 : Micros) : (T × Option (BError E)) × CircuitBreakerMux T E :=
  match mapLoad c.breakers key with
  | some cba =>
      let g := cba.Get t1
      ((g.1.Execute (c.efunc key)),
       { c with breakers := mapUpdate c.breakers key g.2 })
  | none =>
      let ust := { c.st with Name := key }
      let cb := NewCircuitBreaker T ust
      let cba := Cache.New t1 t2 cb
      ((cb.Execute (c.efunc key)),
       { c with breakers := mapStore c.breakers key cba })

/-- CircuitBreakerMux.GetKeyExec: as Get, but the execution closure factory
is applied to ex rather than to key. -/
def CircuitBreakerMux.GetKeyExec [Inhabited T] (c : CircuitBreakerMux T E)
    (key ex : String) (t1 t2 : Micros) :
    (T × Option (BError E)) × CircuitBreakerMux T E :=
  match mapLoad c.breakers key with
  | some cba =>
      let g := cba.Get t1
      ((g.1.Execute (c.efunc ex)),
       { c with breakers := mapUpdate c.breakers key g.2 })
  | none =>
      let ust := { c.st with Name := key }
      let cb := NewCircuitBreaker T ust
      let cba := Cache.New t1 t2 cb
      ((cb.Execute (c.efunc ex)),
       { c with breakers := mapStore c.breakers key cba })

/-- CircuitBreakerMux.Delete: remove the breaker named by key, if any. -/
def CircuitBreakerMux.Delete (c : CircuitBreakerMux T E) (key : String) :
    CircuitBreakerMux T E :=
  { c with breakers := mapDelete c.breakers key }

/-- CircuitBreakerMux.Clear: remove all keys and breakers. -/
def CircuitBreakerMux.Clear (c : CircuitBreakerMux T E) : CircuitBreakerMux T E :=
  { c with breakers := [] }

/-- A Go panic raised by a mux operation. Closing an already-closed channel
panics. -/
inductive GoPanic where
  | closeOfClosedChannel
  deriving Repr, DecidableEq

/-- CircuitBreakerMux.Close: close the kill channel, then low-level clear of
the map. Per Go channel semantics, close of an already-closed channel
panics. -/
def CircuitBreakerMux.Close (c : CircuitBreakerMux T E) :
    Except GoPanic (CircuitBreakerMux T E) :=
  if c.killClosed then Except.error GoPanic.closeOfClosedChannel
  else Except.ok { c with killClosed := true, breakers := [] }

/-- CircuitBreakerMux.expire: traverse the map and remove, through the
low-level map delete, every slot whose atime is strictly before deadtime. -/
def CircuitBreakerMux.expire (c : CircuitBreakerMux T E) (deadtime : Micros) :
    CircuitBreakerMux T E :=
  { c with breakers := c.breakers.filter (fun p => !(decide (p.2.atime < deadtime))) }

/-- One tick of the background sweep loop spawned by NewMux, at clock sample
now: under the clear-all policy it invokes the high-level Clear; under the
expire-idle policy it invokes expire at deadline now minus ExpireAfter;
with no scheduler nothing happens. -/
def sweepTick (st : Settings T E) (c : CircuitBreakerMux T E) (now : Micros) :
    CircuitBreakerMux T E :=
  match schedPolicy st with
  | SweepPolicy.noSweep => c
  | SweepPolicy.clearAll _ => c.Clear
  | SweepPolicy.expireIdle _ after => c.expire (now - after)

/-- A sequence of cache.Get reads at the given clock samples, returning the
final slot state. -/
def readsSeq (c : Cache α) (ts : List Micros) : Cache α :=
  ts.foldl (fun c t => (c.Get t).2) c

/-! Concrete instances used to evaluate the development on closed inputs. -/

/-- A concrete breaker settings template. -/
def demoGS : GSettings Nat :=
  { Name := "demo", MaxRequests := 1, Interval := 0, Timeout := 60,
    ReadyToTrip := fun c => 5 < c.consecutiveFailures,
    OnStateChange := fun _ _ _ => (),
    IsSuccessful := fun e => e.isNone }

/-- A concrete mux configuration over Nat values and Nat error payloads. -/
def demoSettings : Settings Nat Nat :=
  { gset := demoGS,
    ExecClosure := fun s => fun _ => (s.length, if s.length == 2 then some 1 else none),
    ExpireAfter := 100, ExpireCheck := 10 }

/-- A concrete key. -/
def keyA : String := "a"

/-- Another concrete key. -/
def keyB : String := "b"

/-- A fresh mux built from the concrete configuration. -/
def demoMux : CircuitBreakerMux Nat Nat := NewMux demoSettings

/-- A concrete slot holding a breaker for keyA, created at clock samples 3, 4. -/
def slotA : Cache (CircuitBreaker Nat Nat) := Cache.New 3 4 (NewCircuitBreaker Nat demoGS)

/-- The concrete mux with keyA bound to slotA. -/
def muxA : CircuitBreakerMux Nat Nat := { demoMux with breakers := [(keyA, slotA)] }

/-- A slot created at clock samples 150, 150, fresher than slotA. -/
def slotFresh : Cache (CircuitBreaker Nat Nat) := Cache.New 150 150 (NewCircuitBreaker Nat demoGS)

/-- The concrete mux with a stale slot for keyA and a fresh slot for keyB. -/
def muxB : CircuitBreakerMux Nat Nat :=
  { demoMux with breakers := [(keyA, slotA), (keyB, slotFresh)] }

/-- The concrete configuration with a nonpositive sweep interval. -/
def demoSettingsNoSweep : Settings Nat Nat := { demoSettings with ExpireCheck := 0 }

/-- The concrete configuration with a positive sweep interval and a
nonpositive idle threshold. -/
def demoSettingsClear : Settings Nat Nat := { demoSettings with ExpireAfter := 0 }

/-- A concrete breaker whose circuit is open. -/
def openBreaker : CircuitBreaker Nat Nat := { st := demoGS, isOpen := true }

/-- A concrete slot holding the open breaker. -/
def slotOpen : Cache (CircuitBreaker Nat Nat) := Cache.New 3 4 openBreaker

/-- The concrete mux with keyA bound to the open breaker. -/
def muxOpen : CircuitBreakerMux Nat Nat := { demoMux with breakers := [(keyA, slotOpen)] }

/-- The mux state Close leaves behind on success: kill channel closed and
map cleared at low level. -/
def closedMux (c : CircuitBreakerMux T E) : CircuitBreakerMux T E :=
  { c with killClosed := true, breakers := [] }

/-- The concrete mux after one Close. -/
def muxClosedOnce : CircuitBreakerMux Nat Nat :=
  { demoMux with killClosed := true, breakers := [] }

/-- The breaker a Get or GetKeyExec for a key executes on: the stored one
when a slot is present, otherwise a fresh one built from the renamed
template. -/
def muxBreaker (c : CircuitBreakerMux T E) (key : String) : CircuitBreaker T E :=
  match mapLoad c.breakers key with
  | some cba => cba.item
  | none => NewCircuitBreaker T { c.st with Name := key }

/-! Helper lemmas. -/

/-- Deleting an unbound key leaves the map unchanged. -/
theorem mapDelete_id (m : List (String × α)) (k : String) (h : mapLoad m k = none) :
    mapDelete m k = m := by
  rw [mapDelete, List.filter_eq_self]
  intro a ha
  have hn : m.find? (fun p => p.1 == k) = none := by
    simpa [mapLoad] using h
  have := List.find?_eq_none.mp hn a ha
  simpa using this

/-- Loading a key just stored yields the stored value. -/
theorem mapLoad_store_self (m : List (String × α)) (k : String) (v : α) :
    mapLoad (mapStore m k v) k = some v := by
  simp [mapLoad, mapStore, List.find?_cons]

/-- A sequence of reads never changes the stored modification time. -/
theorem readsSeq_mtime (ts : List Micros) : ∀ c : Cache α, (readsSeq c ts).mtime = c.mtime := by
  induction ts with
  | nil => intro c; rfl
  | cons t ts ih => intro c; exact ih ((c.Get t).2)

/-- A sequence of reads never changes the stored item. -/
theorem readsSeq_item (ts : List Micros) : ∀ c : Cache α, (readsSeq c ts).item = c.item := by
  induction ts with
  | nil => intro c; rfl
  | cons t ts ih => intro c; exact ih ((c.Get t).2)

/-! Claim theorems. -/

/-- C6: a slot is write-once: its modify time is set at creation and is
unchanged by any sequence of subsequent reads, every read returns exactly
the payload stored at creation, every read sets the access time to the
clock sample of that read, and, given a non-decreasing clock, the access
time is non-decreasing across reads. -/
theorem c6_slot_write_once (t1 t2 : Micros) (x : α) (ts : List Micros)
    (c : Cache α) (t : Micros) :
    (readsSeq (Cache.New t1 t2 x) ts).Mtime = t1
  ∧ (readsSeq (Cache.New t1 t2 x) ts).item = x
  ∧ (c.Get t).2.Mtime = c.Mtime
  ∧ (c.Get t).1 = c.item
  ∧ (c.Get t).2.Atime = t
  ∧ (c.Atime ≤ t → c.Atime ≤ (c.Get t).2.Atime) :=
  ⟨readsSeq_mtime ts (Cache.New t1 t2 x), readsSeq_item ts (Cache.New t1 t2 x),
   rfl, rfl, rfl, fun h => h⟩

/-- C6 witness: the slot properties evaluated on a concrete slot, a concrete
read trace, and a concrete read. -/
theorem c6_slot_write_once_witness :
    (readsSeq (Cache.New 0 1 (5 : Nat)) [3, 7]).Mtime = 0
  ∧ (readsSeq (Cache.New 0 1 (5 : Nat)) [3, 7]).item = 5
  ∧ ((Cache.New 0 1 (5 : Nat)).Get 9).2.Mtime = (Cache.New 0 1 (5 : Nat)).Mtime
  ∧ ((Cache.New 0 1 (5 : Nat)).Get 9).1 = (Cache.New 0 1 (5 : Nat)).item
  ∧ ((Cache.New 0 1 (5 : Nat)).Get 9).2.Atime = 9
  ∧ (Cache.New 0 1 (5 : Nat)).Atime ≤ ((Cache.New 0 1 (5 : Nat)).Get 9).2.Atime :=
  have h := c6_slot_write_once 0 1 (5 : Nat) [3, 7] (Cache.New 0 1 (5 : Nat)) 9
  ⟨h.1, h.2.1, h.2.2.1, h.2.2.2.1, h.2.2.2.2.1, h.2.2.2.2.2 (by decide)⟩

/-- C10: the invariant that a slot's access time is at least its modify time
is established at creation (the modify time is stored from the first clock
sample, the access time from the second, and the clock is non-decreasing)
and preserved by every read (a read only advances the access time, at a
clock sample at or after the previous access time). -/
theorem c10_atime_ge_mtime (t1 t2 : Micros) (x : α) (c : Cache α) (t : Micros) :
    (t1 ≤ t2 → (Cache.New t1 t2 x).Mtime ≤ (Cache.New t1 t2 x).Atime)
  ∧ (c.Mtime ≤ c.Atime → c.Atime ≤ t →
       (c.Get t).2.Mtime ≤ (c.Get t).2.Atime) :=
  ⟨fun h => h, fun h1 h2 => le_trans h1 h2⟩

/-- C10 witness: the invariant evaluated on a concrete creation and a
concrete read. -/
theorem c10_atime_ge_mtime_witness :
    ((Cache.New 2 3 (5 : Nat)).Mtime ≤ (Cache.New 2 3 (5 : Nat)).Atime)
  ∧ (((Cache.New 2 3 (5 : Nat)).Get 8).2.Mtime ≤ ((Cache.New 2 3 (5 : Nat)).Get 8).2.Atime) :=
  have h := c10_atime_ge_mtime 2 3 (5 : Nat) (Cache.New 2 3 (5 : Nat)) 8
  ⟨h.1 (by decide), h.2 (by decide) (by decide)⟩

/-- C7 counterexample: cache.New samples the clock twice, first for the
modify time and then for the access time; when the second sample is later,
the two times differ immediately after creation, refuting that both always
equal one and the same creation instant. -/
theorem c7_create_times_cex :
    ¬ ((Cache.New 0 1 (42 : Nat)).Atime = (Cache.New 0 1 (42 : Nat)).Mtime) := by
  decide

/-- C7 amended: creating a slot stores the modify time from the first clock
sample and the access time from the second; the two are equal whenever the
clock did not advance between the two samples, and in general, with a
non-decreasing clock, the access time is at least the modify time. -/
theorem c7_create_times_amended (t1 t2 : Micros) (x : α) :
    (Cache.New t1 t2 x).Mtime = t1
  ∧ (Cache.New t1 t2 x).Atime = t2
  ∧ (t1 = t2 → (Cache.New t1 t2 x).Atime = (Cache.New t1 t2 x).Mtime)
  ∧ (t1 ≤ t2 → (Cache.New t1 t2 x).Mtime ≤ (Cache.New t1 t2 x).Atime) :=
  ⟨rfl, rfl, fun h => h.symm, fun h => h⟩

/-- C7 amended witness: the amended creation-time property evaluated on
concrete slots. -/
theorem c7_create_times_amended_witness :
    ((Cache.New 6 6 (5 : Nat)).Atime = (Cache.New 6 6 (5 : Nat)).Mtime)
  ∧ ((Cache.New 6 7 (5 : Nat)).Mtime ≤ (Cache.New 6 7 (5 : Nat)).Atime) :=
  ⟨(c7_create_times_amended 6 6 (5 : Nat)).2.2.1 rfl,
   (c7_create_times_amended 6 7 (5 : Nat)).2.2.2 (by decide)⟩

/-- C1: Get is get-or-create-and-execute. If a slot for the key is present,
Get reads the slot (the read updates its access time in place, through the
pointer held by the map), takes the stored breaker, and returns the result
of executing the closure the factory yields for the key. If no slot is
present, Get copies the settings template with the instance name set to the
key, constructs a new breaker from the copy, wraps it in a new slot whose
modify and access times are the two creation clock samples, stores the slot
under the key, and returns the result of executing the factory closure for
the key on the new breaker. -/
theorem c1_get_or_create [Inhabited T] (c : CircuitBreakerMux T E) (key : String)
    (t1 t2 : Micros) :
    (∀ cba, mapLoad c.breakers key = some cba →
       c.Get key t1 t2 =
         ((cba.item.Execute (c.efunc key)),
          { c with breakers := mapUpdate c.breakers key { cba with atime := t1 } }))
  ∧ (mapLoad c.breakers key = none →
       c.Get key t1 t2 =
         (((NewCircuitBreaker T { c.st with Name := key }).Execute (c.efunc key)),
          { c with breakers := (mapStore c.breakers key
              (Cache.New t1 t2 (NewCircuitBreaker T { c.st with Name := key }))) })) := by
  constructor
  · intro cba h
    simp only [CircuitBreakerMux.Get, Cache.Get, h]
  · intro h
    simp only [CircuitBreakerMux.Get, Cache.Get, h]

/-- C1 witness: both branches of get-or-create-and-execute evaluated on a
concrete mux that binds keyA and does not bind keyB. -/
theorem c1_get_or_create_witness :
    (muxA.Get keyA 7 8 =
       ((slotA.item.Execute (muxA.efunc keyA)),
        { muxA with breakers := mapUpdate muxA.breakers keyA { slotA with atime := 7 } }))
  ∧ (muxA.Get keyB 7 8 =
       (((NewCircuitBreaker Nat { muxA.st with Name := keyB }).Execute (muxA.efunc keyB)),
        { muxA with breakers := (mapStore muxA.breakers keyB
            (Cache.New 7 8 (NewCircuitBreaker Nat { muxA.st with Name := keyB }))) })) :=
  ⟨(c1_get_or_create muxA keyA 7 8).1 slotA rfl,
   (c1_get_or_create muxA keyB 7 8).2 rfl⟩

/-- C4: GetKeyExec is Get with the factory applied to the execution argument
instead of the key: it leaves exactly the state Get would leave for the same
key, its result is the execution of the looked-up or newly created breaker
for the key on the closure built from the execution argument, and applied
at the key itself it coincides with Get. -/
theorem c4_getkeyexec_refines_get [Inhabited T] (c : CircuitBreakerMux T E)
    (key ex : String) (t1 t2 : Micros) :
    ((c.GetKeyExec key ex t1 t2).2 = (c.Get key t1 t2).2)
  ∧ ((c.GetKeyExec key ex t1 t2).1 =
       (match mapLoad c.breakers key with
        | some cba => cba.item.Execute (c.efunc ex)
        | none => (NewCircuitBreaker T { c.st with Name := key }).Execute (c.efunc ex)))
  ∧ (c.GetKeyExec key key t1 t2 = c.Get key t1 t2) := by
  refine ⟨?_, ?_, ?_⟩ <;>
    cases h : mapLoad c.breakers key <;>
      simp [CircuitBreakerMux.Get, CircuitBreakerMux.GetKeyExec, Cache.Get, h]

/-- C2: with a positive idle threshold, the sweep tick routes to expire at
deadline now minus ExpireAfter, which keeps a binding exactly when its slot
was already in the map with access time not strictly before the deadline;
the sweep is a pure map operation that touches nothing else in the mux. -/
theorem c2_expire_exact (st : Settings T E) (c : CircuitBreakerMux T E) (now : Micros)
    (hA : 0 < st.ExpireAfter) (hC : 0 < st.ExpireCheck) :
    (sweepTick st c now = c.expire (now - st.ExpireAfter))
  ∧ (∀ k slot, ((k, slot) ∈ (sweepTick st c now).breakers ↔
       (k, slot) ∈ c.breakers ∧ ¬ (slot.atime < now - st.ExpireAfter)))
  ∧ ((sweepTick st c now).st = c.st)
  ∧ ((sweepTick st c now).efunc = c.efunc)
  ∧ ((sweepTick st c now).killClosed = c.killClosed) := by
  have hpol : schedPolicy st = SweepPolicy.expireIdle st.ExpireCheck st.ExpireAfter := by
    simp [schedPolicy, hC, not_le.mpr hA]
  have htick : sweepTick st c now = c.expire (now - st.ExpireAfter) := by
    simp [sweepTick, hpol]
  refine ⟨htick, fun k slot => ?_, ?_, ?_, ?_⟩ <;>
    simp [htick, CircuitBreakerMux.expire, List.mem_filter]

/-- C2 witness: the sweep tick evaluated on a concrete mux holding one stale
and one fresh slot, at a concrete instant. -/
theorem c2_expire_exact_witness :
    (sweepTick demoSettings muxB 200 = muxB.expire (200 - demoSettings.ExpireAfter))
  ∧ ((keyA, slotA) ∈ (sweepTick demoSettings muxB 200).breakers ↔
       (keyA, slotA) ∈ muxB.breakers ∧ ¬ (slotA.atime < 200 - demoSettings.ExpireAfter))
  ∧ ((keyB, slotFresh) ∈ (sweepTick demoSettings muxB 200).breakers ↔
       (keyB, slotFresh) ∈ muxB.breakers ∧ ¬ (slotFresh.atime < 200 - demoSettings.ExpireAfter)) :=
  have h := c2_expire_exact demoSettings muxB 200 (by decide) (by decide)
  ⟨h.1, h.2.1 keyA slotA, h.2.1 keyB slotFresh⟩

/-- C3: the sweep scheduler exists exactly when ExpireCheck is positive; with
ExpireCheck nonpositive, a tick does nothing; with ExpireCheck positive and
ExpireAfter nonpositive, every tick invokes the high-level Clear. -/
theorem c3_scheduler_policy (st : Settings T E) (c : CircuitBreakerMux T E) (now : Micros) :
    (st.ExpireCheck ≤ 0 → schedPolicy st = SweepPolicy.noSweep ∧ sweepTick st c now = c)
  ∧ (0 < st.ExpireCheck → st.ExpireAfter ≤ 0 →
       schedPolicy st = SweepPolicy.clearAll st.ExpireCheck ∧ sweepTick st c now = c.Clear)
  ∧ (schedPolicy st = SweepPolicy.noSweep ↔ st.ExpireCheck ≤ 0) := by
  constructor
  · intro h
    have hpol : schedPolicy st = SweepPolicy.noSweep := by
      simp [schedPolicy, not_lt.mpr h]
    exact ⟨hpol, by simp [sweepTick, hpol]⟩
  constructor
  · intro h1 h2
    have hpol : schedPolicy st = SweepPolicy.clearAll st.ExpireCheck := by
      simp [schedPolicy, h1, h2]
    exact ⟨hpol, by simp [sweepTick, hpol]⟩
  · constructor
    · intro h
      by_contra hc
      rw [not_le] at hc
      unfold schedPolicy at h
      rw [if_pos hc] at h
      by_cases ha : st.ExpireAfter ≤ 0
      · rw [if_pos ha] at h
        exact SweepPolicy.noConfusion h
      · rw [if_neg ha] at h
        exact SweepPolicy.noConfusion h
    · intro h
      simp [schedPolicy, not_lt.mpr h]

/-- C3 witness: the scheduler policy evaluated on concrete configurations
with a nonpositive sweep interval and with a positive interval but
nonpositive idle threshold. -/
theorem c3_scheduler_policy_witness :
    (schedPolicy demoSettingsNoSweep = SweepPolicy.noSweep
       ∧ sweepTick demoSettingsNoSweep muxA 50 = muxA)
  ∧ (schedPolicy demoSettingsClear = SweepPolicy.clearAll demoSettingsClear.ExpireCheck
       ∧ sweepTick demoSettingsClear muxA 50 = muxA.Clear) :=
  ⟨(c3_scheduler_policy demoSettingsNoSweep muxA 50).1 (by decide),
   (c3_scheduler_policy demoSettingsClear muxA 50).2.1 (by decide) (by decide)⟩

/-- C5: the map operations of the mux never produce an error of their own:
Delete of an unbound key is the identity, Clear only empties the map, and
the result error of Get and GetKeyExec is exactly the circuit-open error
when the executing breaker is open, and otherwise exactly the error of the
underlying execution closure, passed through unchanged. -/
theorem c5_no_mux_errors [Inhabited T] (c : CircuitBreakerMux T E)
    (key ex : String) (t1 t2 : Micros) :
    (mapLoad c.breakers key = none → c.Delete key = c)
  ∧ (c.Clear = { c with breakers := [] })
  ∧ ((muxBreaker c key).isOpen = true →
       (c.Get key t1 t2).1 = (default, some BError.openCircuit))
  ∧ ((muxBreaker c key).isOpen = false →
       (c.Get key t1 t2).1 = ((c.efunc key ()).1, ((c.efunc key ()).2).map BError.exec))
  ∧ ((muxBreaker c key).isOpen = true →
       (c.GetKeyExec key ex t1 t2).1 = (default, some BError.openCircuit))
  ∧ ((muxBreaker c key).isOpen = false →
       (c.GetKeyExec key ex t1 t2).1 = ((c.efunc ex ()).1, ((c.efunc ex ()).2).map BError.exec)) := by
  refine ⟨fun h => ?_, rfl, fun h => ?_, fun h => ?_, fun h => ?_, fun h => ?_⟩
  · simp [CircuitBreakerMux.Delete, mapDelete_id c.breakers key h]
  · cases hm : mapLoad c.breakers key with
    | some cba =>
        simp only [muxBreaker, hm] at h
        simp [CircuitBreakerMux.Get, Cache.Get, CircuitBreaker.Execute, hm, h]
    | none =>
        simp [muxBreaker, NewCircuitBreaker, hm] at h
  · cases hm : mapLoad c.breakers key with
    | some cba =>
        simp only [muxBreaker, hm] at h
        simp [CircuitBreakerMux.Get, Cache.Get, CircuitBreaker.Execute, hm, h]
    | none =>
        simp [CircuitBreakerMux.Get, CircuitBreaker.Execute, NewCircuitBreaker, hm]
  · cases hm : mapLoad c.breakers key with
    | some cba =>
        simp only [muxBreaker, hm] at h
        simp [CircuitBreakerMux.GetKeyExec, Cache.Get, CircuitBreaker.Execute, hm, h]
    | none =>
        simp [muxBreaker, NewCircuitBreaker, hm] at h
  · cases hm : mapLoad c.breakers key with
    | some cba =>
        simp only [muxBreaker, hm] at h
        simp [CircuitBreakerMux.GetKeyExec, Cache.Get, CircuitBreaker.Execute, hm, h]
    | none =>
        simp [CircuitBreakerMux.GetKeyExec, CircuitBreaker.Execute, NewCircuitBreaker, hm]

/-- C5 witness: the no-own-errors properties evaluated on concrete muxes
with an unbound key, a closed breaker, and an open breaker. -/
theorem c5_no_mux_errors_witness :
    (muxA.Delete keyB = muxA)
  ∧ (muxA.Clear = { muxA with breakers := ([] : List (String × Cache (CircuitBreaker Nat Nat))) })
  ∧ ((muxOpen.Get keyA 7 8).1 = (default, some BError.openCircuit))
  ∧ ((muxA.Get keyA 7 8).1 = ((muxA.efunc keyA ()).1, ((muxA.efunc keyA ()).2).map BError.exec))
  ∧ ((muxOpen.GetKeyExec keyA keyB 7 8).1 = (default, some BError.openCircuit))
  ∧ ((muxA.GetKeyExec keyA keyB 7 8).1
       = ((muxA.efunc keyB ()).1, ((muxA.efunc keyB ()).2).map BError.exec)) :=
  ⟨(c5_no_mux_errors muxA keyB keyB 7 8).1 rfl,
   (c5_no_mux_errors muxA keyA keyB 7 8).2.1,
   (c5_no_mux_errors muxOpen keyA keyB 7 8).2.2.1 rfl,
   (c5_no_mux_errors muxA keyA keyB 7 8).2.2.2.1 rfl,
   (c5_no_mux_errors muxOpen keyA keyB 7 8).2.2.2.2.1 rfl,
   (c5_no_mux_errors muxA keyA keyB 7 8).2.2.2.2.2 rfl⟩

/-- C8 counterexample: Close closes the kill channel unconditionally, and
closing an already-closed channel panics in Go; on a concrete mux, the
first Close succeeds and the second Close faults. -/
theorem c8_double_close_cex :
    demoMux.Close = Except.ok muxClosedOnce
  ∧ muxClosedOnce.Close = Except.error GoPanic.closeOfClosedChannel :=
  ⟨rfl, rfl⟩

/-- C8 amended: Close is a one-shot: on a mux whose kill channel is still
open, Close succeeds, closing the channel and clearing the map, and any
further Close on the resulting mux panics with close of closed channel;
the cancellation broadcast is not idempotent-safe. -/
theorem c8_close_one_shot (c : CircuitBreakerMux T E) :
    (c.killClosed = false →
       c.Close = Except.ok (closedMux c)
     ∧ (closedMux c).Close = Except.error GoPanic.closeOfClosedChannel)
  ∧ (c.killClosed = true → c.Close = Except.error GoPanic.closeOfClosedChannel) := by
  constructor
  · intro h
    constructor
    · simp [CircuitBreakerMux.Close, closedMux, h]
    · rfl
  · intro h
    simp [CircuitBreakerMux.Close, h]

/-- C8 amended witness: one-shot Close evaluated on a concrete fresh mux and
on the concrete mux already closed once. -/
theorem c8_close_one_shot_witness :
    (demoMux.Close = Except.ok (closedMux demoMux))
  ∧ ((closedMux demoMux).Close = Except.error GoPanic.closeOfClosedChannel)
  ∧ (muxClosedOnce.Close = Except.error GoPanic.closeOfClosedChannel) :=
  ⟨((c8_close_one_shot demoMux).1 rfl).1,
   ((c8_close_one_shot demoMux).1 rfl).2,
   (c8_close_one_shot muxClosedOnce).2 rfl⟩

/-- C9: when Get or GetKeyExec creates a breaker for an unbound key, the
configuration handed to it is the template with only the instance name
replaced by the key: every other template field is unchanged; the template
held by the mux itself is unmodified; and the breaker stored under the key
carries exactly that renamed copy. -/
theorem c9_settings_copy [Inhabited T] (c : CircuitBreakerMux T E) (key ex : String)
    (t1 t2 : Micros) (h : mapLoad c.breakers key = none) :
    ({ c.st with Name := key }).Name = key
  ∧ ({ c.st with Name := key }).MaxRequests = c.st.MaxRequests
  ∧ ({ c.st with Name := key }).Interval = c.st.Interval
  ∧ ({ c.st with Name := key }).Timeout = c.st.Timeout
  ∧ ({ c.st with Name := key }).ReadyToTrip = c.st.ReadyToTrip
  ∧ ({ c.st with Name := key }).OnStateChange = c.st.OnStateChange
  ∧ ({ c.st with Name := key }).IsSuccessful = c.st.IsSuccessful
  ∧ ((c.Get key t1 t2).2.st = c.st)
  ∧ ((c.GetKeyExec key ex t1 t2).2.st = c.st)
  ∧ (∀ slot, mapLoad (c.Get key t1 t2).2.breakers key = some slot →
       slot.item.st = { c.st with Name := key })
  ∧ (∀ slot, mapLoad (c.GetKeyExec key ex t1 t2).2.breakers key = some slot →
       slot.item.st = { c.st with Name := key }) := by
  refine ⟨rfl, rfl, rfl, rfl, rfl, rfl, rfl, ?_, ?_, ?_, ?_⟩
  · simp [CircuitBreakerMux.Get, h]
  · simp [CircuitBreakerMux.GetKeyExec, h]
  · intro slot hs
    simp only [CircuitBreakerMux.Get, h] at hs
    rw [mapLoad_store_self] at hs
    rw [← Option.some.inj hs]
    rfl
  · intro slot hs
    simp only [CircuitBreakerMux.GetKeyExec, h] at hs
    rw [mapLoad_store_self] at hs
    rw [← Option.some.inj hs]
    rfl

/-- C9 witness: the settings-copy properties evaluated for a concrete mux
and a concrete unbound key. -/
theorem c9_settings_copy_witness :
    ({ muxA.st with Name := keyB }).Name = keyB
  ∧ ({ muxA.st with Name := keyB }).ReadyToTrip = muxA.st.ReadyToTrip
  ∧ ((muxA.Get keyB 7 8).2.st = muxA.st)
  ∧ ((muxA.GetKeyExec keyB keyA 7 8).2.st = muxA.st)
  ∧ (Cache.New 7 8 (NewCircuitBreaker Nat { muxA.st with Name := keyB })).item.st
      = { muxA.st with Name := keyB } :=
  have h := c9_settings_copy muxA keyB keyA 7 8 rfl
  ⟨h.1, h.2.2.2.2.1, h.2.2.2.2.2.2.2.1, h.2.2.2.2.2.2.2.2.1,
   h.2.2.2.2.2.2.2.2.2.1 (Cache.New 7 8 (NewCircuitBreaker Nat { muxA.st with Name := keyB })) rfl⟩

end Breakermux
